import Mathlib

set_option maxRecDepth 8000

/-!
Shallow embedding of the AttendEase biometric attendance core: the descriptor
comparator and matcher (findBestMatch), the session resolver
(getCurrentTimeSlot), the attendance ledger (the POST /api/attendance/mark
handler) and the meal ledger (the POST /api/meal/mark handler), together with
the request-boundary validation of the attendance-mark route and the
validateDescriptor utility.

Modelling conventions, chosen to keep every definition executable:
* JS numbers appearing in descriptors and thresholds are rationals.
* A Euclidean distance is either Infinity (the sentinel returned on a missing
  input or a length mismatch) or the square root of the rational sum of
  squared differences; the latter is represented exactly by that rational sum
  (constructor Dist.sq).  The JS comparisons on distances are translated to
  the equivalent square-free comparisons: for s, u ≥ 0 Math.sqrt s < t holds
  iff 0 < t and s < t², and Math.sqrt s < Math.sqrt u iff s < u.  Bridge
  lemmas below (distLtQ_iff_sqrt_lt, confidence_eq_round) prove the
  representation agrees with the real-number semantics.
* JS strings are Lean strings; the JS relational operators on strings compare
  code units lexicographically, which the function charListLt implements.
* Fallible or falsy-guarded values (missing request fields, a student record
  without stored descriptors) are Options.
-/

namespace AttendEase

/-- Lexicographic comparison of char lists; this is the order JS uses for
its string relational operators (code-unit by code-unit). -/
def charListLt : List Char → List Char → Bool
  | [], [] => false
  | [], _ :: _ => true
  | _ :: _, [] => false
  | a :: as, b :: bs => if a < b then true else if b < a then false else charListLt as bs

/-- JS string comparison a < b. -/
def jsStrLt (a b : String) : Bool := charListLt a.data b.data

/-- JS timestamp.slice(0, 10): the first ten characters (the YYYY-MM-DD part
of an ISO-8601 timestamp). -/
def jsSlice10 (s : String) : String := String.mk (s.data.take 10)

/-- JS timestamp.split(the char T)[0]: the prefix of the string before the
first T, the whole string when no T occurs. -/
def jsSplitTHead (s : String) : String := String.mk (s.data.takeWhile (fun c => c != 'T'))

/-- JS (s || d) for an optional string s: a missing or empty (falsy) string
falls back to the default d. -/
def jsOrStr (s : Option String) (d : String) : String :=
  match s with
  | some v => if v == "" then d else v
  | none => d

/-- Largest natural r with r * r ≤ n, computed by the digit-pair method; the
first argument is the number, the second structural fuel (any fuel ≥ n works,
see isqrtGo_spec). -/
def isqrtGo (n : ℕ) : ℕ → ℕ
  | 0 => 0
  | fuel + 1 =>
    if n = 0 then 0 else
    let r := 2 * isqrtGo (n / 4) fuel
    if (r + 1) * (r + 1) ≤ n then r + 1 else r

/-- Integer square root (rounded down). -/
def isqrt (n : ℕ) : ℕ := isqrtGo n n

/-- Integer square root rounded up: the least r with n ≤ r * r. -/
def ceilSqrt (n : ℕ) : ℕ :=
  let r := isqrt n
  if r * r = n then r else r + 1

/-- The exact value of a JS descriptor distance: Math.sqrt s for a
nonnegative rational s (the sum of squared component differences), or the
Infinity sentinel. -/
inductive Dist where
  | sq (s : ℚ)
  | inf
deriving DecidableEq, Repr

/-- The JS comparison dist < t against a rational threshold t.  For the
finite case Math.sqrt s < t iff 0 < t and s < t * t (s is a sum of squares,
hence nonnegative); Infinity < t is false for every finite t. -/
def Dist.ltQ : Dist → ℚ → Bool
  | .sq s, t => decide (0 < t) && decide (s < t * t)
  | .inf, _ => false

/-- The JS comparison between two distances.  Math.sqrt is strictly monotone
on nonnegative arguments, so Math.sqrt s < Math.sqrt u iff s < u; every
finite value is below Infinity; Infinity < x is always false. -/
def Dist.lt : Dist → Dist → Bool
  | .sq s, .sq u => decide (s < u)
  | .sq _, .inf => true
  | .inf, _ => false

/-- Non-strict counterpart of Dist.lt (used only to state theorems). -/
def Dist.le (a b : Dist) : Bool := !(Dist.lt b a)

/-- Math.round((1 - dist) * 100) for dist = Math.sqrt s, computed exactly.
JS Math.round x = ⌊x + 1/2⌋.  Writing s = p / q in lowest terms,
(1 - Math.sqrt s) * 100 + 1/2 = (201 q - Math.sqrt (40000 p q)) / (2 q), and
its floor is (201 q - ⌈Math.sqrt (40000 p q)⌉) / (2 q) with ℤ division
(which rounds toward -∞ for a positive divisor).  The lemma
confidence_eq_round below verifies this against the real-number formula.
On the Infinity branch JS would produce -Infinity; the matcher only ever
computes a confidence for a distance strictly below the threshold, so that
branch is unreachable there (my lemma findBestMatch_ltQ) and the value 0
chosen here is never observable. -/
def Dist.confidence : Dist → ℤ
  | .sq s => (201 * (s.den : ℤ) - (ceilSqrt (40000 * s.num.toNat * s.den) : ℤ)) / (2 * (s.den : ℤ))
  | .inf => 0

/-- Sum of squared component differences, as in the JS loop
for i: sum += (desc1[i] - desc2[i])^2 over the common length. -/
def sumSqDiff (a b : List ℚ) : ℚ :=
  (a.zip b).foldl (fun sum d => sum + (d.1 - d.2) * (d.1 - d.2)) 0

/-- euclideanDistance from the attendance route (src/unnamed/part_000
lines 558-567): if either input is missing or the lengths differ the
function returns Infinity, otherwise Math.sqrt of the sum of squared
differences. -/
def euclideanDistance : Option (List ℚ) → Option (List ℚ) → Dist
  | some desc1, some desc2 =>
      if desc1.length != desc2.length then .inf else .sq (sumSqDiff desc1 desc2)
  | _, _ => .inf

/-- A student record as read by the matcher.  The two JS guards
!student.faceData and !student.faceData.descriptors both skip the student;
faceData = none models either missing object.  A present but empty
descriptor array passes the guard (JS arrays are truthy) and contributes no
pairs, exactly as some [] does here.  The source field name class is a Lean
keyword, rendered classLabel. -/
structure Student where
  studentId : String
  name : String
  classLabel : String
  status : String
  faceData : Option (List (List ℚ))
deriving DecidableEq, Repr

/-- The bestMatch object built by findBestMatch. -/
structure BestMatch where
  distance : Dist
  confidence : ℤ
deriving DecidableEq, Repr

/-- findBestMatch from the attendance route (src/unnamed/part_000 lines
570-589): scan the students in list order, skipping those not active or
without stored descriptors; for each stored descriptor compare the distance
with the threshold and the best distance so far, updating the running best
(and the matched student) only on a strict improvement.  The JS default
threshold is 0.6; the route passes the configured threshold explicitly. -/
def findBestMatch (inputDescriptor : List ℚ) (students : List Student) (threshold : ℚ) :
    Option BestMatch × Option Student :=
  students.foldl
    (fun acc student =>
      if student.status != "active" || student.faceData.isNone then acc
      else
        (student.faceData.getD []).foldl
          (fun acc descriptor =>
            let dist := euclideanDistance (some inputDescriptor) (some descriptor)
            let improves :=
              match acc.1 with
              | none => true
              | some b => dist.lt b.distance
            if dist.ltQ threshold && improves then
              (some { distance := dist, confidence := dist.confidence }, some student)
            else acc)
          acc)
    (none, none)

/-- One (student, distance) pair of the matcher scan, for stating the
specification of findBestMatch. -/
structure ScoredPair where
  student : Student
  dist : Dist
deriving DecidableEq, Repr

/-- The pairs one student contributes to the scan, in descriptor order;
none when the student is skipped by the eligibility guard. -/
def studentPairs (input : List ℚ) (s : Student) : List ScoredPair :=
  if s.status != "active" || s.faceData.isNone then []
  else (s.faceData.getD []).map (fun d => ⟨s, euclideanDistance (some input) (some d)⟩)

/-- Every (student, descriptor) pair of the scan, in the candidate list's
iteration order. -/
def eligiblePairs (input : List ℚ) : List Student → List ScoredPair
  | [] => []
  | s :: rest => studentPairs input s ++ eligiblePairs input rest

/-- The matcher's running-best update on one pair: the pair becomes the
current best only if its distance is strictly below the threshold and
strictly below the best distance so far. -/
def stepPair (T : ℚ) (acc : Option ScoredPair) (p : ScoredPair) : Option ScoredPair :=
  let improves :=
    match acc with
    | none => true
    | some b => p.dist.lt b.dist
  if p.dist.ltQ T && improves then some p else acc

/-- The matcher scan as a fold of stepPair over the pair list. -/
def scanPairs (T : ℚ) (acc : Option ScoredPair) (ps : List ScoredPair) : Option ScoredPair :=
  ps.foldl (stepPair T) acc

/-- One step of tracking the minimum distance seen so far. -/
def minStep (acc : Option Dist) (p : ScoredPair) : Option Dist :=
  match acc with
  | none => some p.dist
  | some d => some (if p.dist.lt d then p.dist else d)

/-- Minimum distance of a pair list (none for the empty list). -/
def minDistOpt (ps : List ScoredPair) : Option Dist :=
  ps.foldl minStep none

/-- Specification of the matcher selection, following the spec's words: among
the scanned pairs, those with distance strictly below the threshold; no match
when there are none; otherwise the first-seen pair attaining the minimum
distance (ties keep the first-seen best). -/
def specSelect (T : ℚ) (ps : List ScoredPair) : Option ScoredPair :=
  match minDistOpt (ps.filter (fun p => p.dist.ltQ T)) with
  | none => none
  | some m => ps.find? (fun p => decide (p.dist = m))

/-- The full matcher specification over a candidate list. -/
def matchSpec (input : List ℚ) (students : List Student) (T : ℚ) : Option ScoredPair :=
  specSelect T (eligiblePairs input students)

/-- The result shape of findBestMatch obtained from an optional selected
pair. -/
def toResult (o : Option ScoredPair) : Option BestMatch × Option Student :=
  (o.map (fun p => { distance := p.dist, confidence := p.dist.confidence }), o.map (·.student))

/-! ### Session resolver -/

/-- One configured slot: inclusive start and end times in HH:MM form and a
display name.  The source field name end is a Lean keyword, rendered stop. -/
structure SlotDef where
  start : String
  stop : String
  name : String
deriving DecidableEq, Repr

/-- The result of the session resolver. -/
structure SlotResult where
  type : String
  name : String
  active : Bool
deriving DecidableEq, Repr

/-- JS time >= slot.start && time <= slot.end on HH:MM strings
(>= and <= are the negations of the reversed <). -/
def slotContains (time : String) (slot : SlotDef) : Bool :=
  !(jsStrLt time slot.start) && !(jsStrLt slot.stop time)

/-- Non-strict string order, for the spec side: a < b or a = b. -/
def jsStrLe (a b : String) : Bool := jsStrLt a b || decide (a = b)

/-- Spec-side containment: the closed interval [start, end] contains the
time, inclusive on both ends. -/
def slotContainsSpec (time : String) (slot : SlotDef) : Bool :=
  jsStrLe slot.start time && jsStrLe time slot.stop

/-- The slot table hard-coded in getCurrentTimeSlot (src/unnamed/part_000
lines 596-600), in its declaration order morning, meal, afternoon. -/
def timeSlots : List (String × SlotDef) :=
  [("morning", ⟨"08:00", "12:00", "Morning Session"⟩),
   ("meal", ⟨"12:00", "13:00", "Mid-Day Meal"⟩),
   ("afternoon", ⟨"13:00", "17:00", "Afternoon Session"⟩)]

/-- The loop of getCurrentTimeSlot over an arbitrary slot table: return for
the first slot whose inclusive interval contains the time; past the end of
the table return the inactive no-session result. -/
def resolveSlots (slots : List (String × SlotDef)) (time : String) : SlotResult :=
  match slots with
  | [] => ⟨"none", "No Active Session", false⟩
  | (key, slot) :: rest =>
      if slotContains time slot then ⟨key, slot.name, true⟩ else resolveSlots rest time

/-- getCurrentTimeSlot (src/unnamed/part_000 lines 592-609).  The JS
function reads the wall clock and formats it as HH:MM; that formatted
time-of-day is the argument here. -/
def getCurrentTimeSlot (time : String) : SlotResult := resolveSlots timeSlots time

/-- Specification of the resolver, following the spec's words: the first
configured slot (in declaration order) whose closed interval contains the
time-of-day, inclusive on both ends; the inactive no-session result when no
slot matches. -/
def resolveSessionSpec (slots : List (String × SlotDef)) (time : String) : SlotResult :=
  match slots.find? (fun kv => slotContainsSpec time kv.2) with
  | some (key, slot) => ⟨key, slot.name, true⟩
  | none => ⟨"none", "No Active Session", false⟩

/-! ### Attendance ledger -/

/-- An attendance record as built by the mark route.  createdAt is the
wall-clock ISO timestamp taken at creation, passed in here. -/
structure AttRecord where
  id : String
  studentId : String
  studentName : String
  studentClass : String
  timestamp : String
  date : String
  session : String
  sessionType : String
  status : String
  confidence : ℤ
  createdAt : String
deriving DecidableEq, Repr

/-- Outcome of the attendance ledger decision. -/
inductive MarkOutcome where
  | alreadyMarked (existing : AttRecord)
  | created (record : AttRecord)
deriving DecidableEq, Repr

/-- The duplicate-search predicate of the mark route: same student, same
date, same session string (exact, case-sensitive comparison). -/
def attKeyMatch (studentId date sessionName : String) (a : AttRecord) : Bool :=
  a.studentId == studentId && a.date == date && a.session == sessionName

/-- The record constructed by the mark route (src/unnamed/part_000 lines
656-669).  The JS id is att_ followed by Date.now(); the caller supplies the
generated id and the creation timestamp. -/
def mkAttRecord (m : Student) (conf : ℤ) (ts date sessionName sessionTypeVal newId createdAt : String) :
    AttRecord :=
  { id := newId, studentId := m.studentId, studentName := m.name,
    studentClass := m.classLabel, timestamp := ts, date := date,
    session := sessionName, sessionType := sessionTypeVal, status := "present",
    confidence := conf, createdAt := createdAt }

/-- The ledger decision of POST /api/attendance/mark (src/unnamed/part_000
lines 632-676), after a student has been matched: derive the date as the
first ten characters of the timestamp, resolve the session name as the
caller-supplied session string or (when that is missing or empty) the
resolved slot's name, report an existing record for the same
(studentId, date, session) unchanged, otherwise append a fresh record with
status present and the match confidence.  The statistics counter update and
the snapshot write that follow in the handler do not affect the decision or
the record list and are not part of this state.  The function is total: the
duplicate path returns normally, it never raises. -/
def markAttendance (m : Student) (conf : ℤ) (ts : String) (session sessionType : Option String)
    (slot : SlotResult) (newId createdAt : String) (attendance : List AttRecord) :
    MarkOutcome × List AttRecord :=
  match attendance.find? (attKeyMatch m.studentId (jsSlice10 ts) (jsOrStr session slot.name)) with
  | some existing => (.alreadyMarked existing, attendance)
  | none =>
      (.created (mkAttRecord m conf ts (jsSlice10 ts) (jsOrStr session slot.name)
          (jsOrStr sessionType slot.type) newId createdAt),
        attendance ++ [mkAttRecord m conf ts (jsSlice10 ts) (jsOrStr session slot.name)
          (jsOrStr sessionType slot.type) newId createdAt])

/-- States of the attendance collection reachable from the empty collection
by mark operations. -/
inductive AttReachable : List AttRecord → Prop where
  | init : AttReachable []
  | step (m : Student) (conf : ℤ) (ts : String) (session sessionType : Option String)
      (slot : SlotResult) (newId createdAt : String) {l : List AttRecord} :
      AttReachable l →
      AttReachable (markAttendance m conf ts session sessionType slot newId createdAt l).2

/-- At most one attendance record per (studentId, date, session) triple. -/
def attKeyUnique (l : List AttRecord) : Prop :=
  l.Pairwise (fun a b => ¬(a.studentId = b.studentId ∧ a.date = b.date ∧ a.session = b.session))

/-! ### Meal ledger -/

/-- A meal record as built by POST /api/meal/mark.  The metadata object
(request IP and user agent) carries request-environment data used in no
decision and is omitted. -/
structure MealRecord where
  id : String
  studentId : String
  studentName : String
  studentClass : String
  date : String
  timestamp : String
  status : String
  createdAt : String
deriving DecidableEq, Repr

/-- Outcome of the meal handler. -/
inductive MealOutcome where
  | badRequest
  | notFound
  | alreadyMarked (existing : MealRecord)
  | created (record : MealRecord)
deriving DecidableEq, Repr

/-- The meal duplicate-search predicate: same student, same calendar date -
no session occurs in the key. -/
def mealKeyMatch (studentId mealDate : String) (meal : MealRecord) : Bool :=
  meal.studentId == studentId && meal.date == mealDate

/-- The meal record constructed by the handler (src/unnamed/part_000 lines
299-312). -/
def mkMealRecord (studentId : String) (student : Student) (ts mealDate newId createdAt : String) :
    MealRecord :=
  { id := newId, studentId := studentId, studentName := student.name,
    studentClass := student.classLabel, date := mealDate, timestamp := ts,
    status := "served", createdAt := createdAt }

/-- POST /api/meal/mark (src/unnamed/part_000 lines 252-355): reject a
missing (falsy) studentId or timestamp; derive the meal date as the part of
the timestamp before the first T; reject when no active student has the id;
report an existing meal record for the same (studentId, date) unchanged;
otherwise append a fresh record with status served.  As with attendance, the
statistics counter and the snapshot write are outside this state. -/
def markMeal (studentId ts : String) (students : List Student) (newId createdAt : String)
    (meals : List MealRecord) : MealOutcome × List MealRecord :=
  if studentId == "" || ts == "" then (.badRequest, meals)
  else
    match students.find? (fun s => s.studentId == studentId && s.status == "active") with
    | none => (.notFound, meals)
    | some student =>
        match meals.find? (mealKeyMatch studentId (jsSplitTHead ts)) with
        | some existing => (.alreadyMarked existing, meals)
        | none =>
            (.created (mkMealRecord studentId student ts (jsSplitTHead ts) newId createdAt),
              meals ++ [mkMealRecord studentId student ts (jsSplitTHead ts) newId createdAt])

/-- States of the meal collection reachable from the empty collection by
meal-mark operations. -/
inductive MealReachable : List MealRecord → Prop where
  | init : MealReachable []
  | step (studentId ts : String) (students : List Student) (newId createdAt : String)
      {l : List MealRecord} :
      MealReachable l →
      MealReachable (markMeal studentId ts students newId createdAt l).2

/-- At most one meal record per (studentId, date) pair. -/
def mealKeyUnique (l : List MealRecord) : Prop :=
  l.Pairwise (fun a b => ¬(a.studentId = b.studentId ∧ a.date = b.date))

/-! ### Attendance-mark request boundary -/

/-- A JS array element as the boundary sees it: a (finite) number, or
anything else - strings, nulls, nested arrays, objects, and NaN, all of
which fail the typeof-number-and-not-NaN test of validateDescriptor. -/
inductive JSElem where
  | num (q : ℚ)
  | other (tag : String)
deriving DecidableEq, Repr

/-- The faceDescriptor request field: an array of elements, or a non-array
value. -/
inductive DescVal where
  | arr (elems : List JSElem)
  | nonArray (tag : String)
deriving DecidableEq, Repr

/-- The body of a POST /api/attendance/mark request. -/
structure MarkRequest where
  faceDescriptor : Option DescVal
  timestamp : Option String
  session : Option String
  sessionType : Option String
deriving DecidableEq, Repr

/-- Whether the boundary rejects the request or proceeds into the matcher. -/
inductive BoundaryCheck where
  | rejected (message : String)
  | proceed
deriving DecidableEq, Repr

/-- The input validation of the mark route (src/unnamed/part_000 lines
614-621): a missing (or falsy, e.g. empty-string timestamp) field is
rejected with status 400, then a faceDescriptor that is not an array or
whose length is not 128 is rejected with status 400; otherwise the handler
proceeds to read the database and invoke findBestMatch.  A present non-array
falsy faceDescriptor (such as 0 or the empty string) would be caught by the
first JS guard with the first message; both guards reject, which is all the
claims depend on. -/
def validateMarkRequest (req : MarkRequest) : BoundaryCheck :=
  match req.faceDescriptor, req.timestamp with
  | none, _ => .rejected "Face descriptor and timestamp required"
  | _, none => .rejected "Face descriptor and timestamp required"
  | some d, some ts =>
      if ts == "" then .rejected "Face descriptor and timestamp required"
      else
        match d with
        | .arr elems =>
            if elems.length != 128 then .rejected "Invalid face descriptor" else .proceed
        | .nonArray _ => .rejected "Invalid face descriptor"

/-- FaceRecognitionUtils.validateDescriptor
(src/backend/utils/faceRecognition.js lines 284-295): an array of exactly
128 elements, every one a number and not NaN.  The route above does not call
it. -/
def validateDescriptor : DescVal → Bool
  | .arr elems =>
      elems.length == 128 &&
      elems.all (fun e => match e with | .num _ => true | .other _ => false)
  | .nonArray _ => false

/-! ### Concrete fixtures used by witnesses and counterexamples -/

/-- A sample active student with one stored descriptor of length one. -/
def stuA : Student :=
  { studentId := "S001", name := "Asha", classLabel := "5", status := "active",
    faceData := some [[0]] }

/-- A sample active student whose single stored descriptor is at exact
distance 2 from the zero probe. -/
def stuB : Student :=
  { studentId := "S002", name := "Binta", classLabel := "6", status := "active",
    faceData := some [[2]] }

/-- A 128-element descriptor array none of whose elements is a number. -/
def badElems : List JSElem := List.replicate 128 (.other "str")

/-! ## Theorems

### The string order is total -/

/-- charListLt is a strict total order: not (a < b) iff b < a or a = b. -/
theorem not_charListLt (as bs : List Char) :
    (!(charListLt as bs)) = (charListLt bs as || decide (as = bs)) := by
  induction as generalizing bs with
  | nil => cases bs <;> simp [charListLt]
  | cons a as ih =>
    cases bs with
    | nil => simp [charListLt]
    | cons b bs =>
      rcases lt_trichotomy a b with h | h | h
      · simp [charListLt, h, lt_asymm h, h.ne, h.ne']
      · subst h
        simp only [charListLt, lt_irrefl, if_false]
        simp [ih]
      · simp [charListLt, h, lt_asymm h, h.ne, h.ne']

/-- The string form of the trichotomy above. -/
theorem not_jsStrLt (a b : String) : (!(jsStrLt a b)) = (jsStrLt b a || decide (a = b)) := by
  have hdata : decide (a.data = b.data) = decide (a = b) :=
    decide_eq_decide.mpr ⟨fun h => by cases a; cases b; exact congrArg String.mk h, fun h => by rw [h]⟩
  unfold jsStrLt
  rw [not_charListLt, hdata]

/-- The JS guard time >= start && time <= end coincides with the spec's
inclusive-interval containment. -/
theorem slotContains_eq_spec (time : String) (slot : SlotDef) :
    slotContains time slot = slotContainsSpec time slot := by
  have hcomm : ∀ x y : String, decide (x = y) = decide (y = x) :=
    fun x y => decide_eq_decide.mpr eq_comm
  unfold slotContains slotContainsSpec jsStrLe
  rw [not_jsStrLt, not_jsStrLt, hcomm time slot.start, hcomm slot.stop time]

/-- The resolver loop returns exactly the first-match specification. -/
theorem resolveSlots_eq_spec (slots : List (String × SlotDef)) (time : String) :
    resolveSlots slots time = resolveSessionSpec slots time := by
  induction slots with
  | nil => rfl
  | cons kv rest ih =>
    obtain ⟨key, slot⟩ := kv
    by_cases h : slotContainsSpec time slot
    · rw [resolveSlots, resolveSessionSpec, List.find?_cons_of_pos _ (by simpa using h),
        slotContains_eq_spec, if_pos h]
    · rw [resolveSlots, resolveSessionSpec, List.find?_cons_of_neg _ (by simpa using h),
        slotContains_eq_spec, if_neg h, ih, resolveSessionSpec]

/-- C5: for every wall-clock time-of-day and every slot configuration, the
Session Resolver returns the first slot in declaration order whose closed
interval contains the time, boundary equality counting as inside, and the
inactive no-session result when no slot's interval contains the time;
getCurrentTimeSlot is this resolver applied to the fixed
morning, meal, afternoon table. -/
theorem resolveSlots_first_match_spec :
    (∀ slots time, resolveSlots slots time = resolveSessionSpec slots time) ∧
    (∀ time, getCurrentTimeSlot time = resolveSessionSpec timeSlots time) :=
  ⟨resolveSlots_eq_spec, fun time => resolveSlots_eq_spec timeSlots time⟩

/-- C4 counterexample: at time-of-day 12:00 the resolver returns the morning
slot, not the meal slot the claim expects - the morning interval
[08:00, 12:00] also contains 12:00 and morning is declared first. -/
theorem getCurrentTimeSlot_noon_is_morning :
    getCurrentTimeSlot "12:00" = ⟨"morning", "Morning Session", true⟩ ∧
    (getCurrentTimeSlot "12:00").type ≠ "meal" := by
  constructor <;> decide

/-- C4 amended: resolving the session at 08:00, 11:59, 12:00, 12:30, 13:00,
13:01, 17:00 and 23:00 against the default boundaries yields morning,
morning, morning (the slot declared first among those whose interval
includes the 12:00 boundary), meal, meal (likewise first-declared at the
13:00 boundary), afternoon, afternoon and none respectively. -/
theorem getCurrentTimeSlot_default_table_evaluations :
    getCurrentTimeSlot "08:00" = ⟨"morning", "Morning Session", true⟩ ∧
    getCurrentTimeSlot "11:59" = ⟨"morning", "Morning Session", true⟩ ∧
    getCurrentTimeSlot "12:00" = ⟨"morning", "Morning Session", true⟩ ∧
    getCurrentTimeSlot "12:30" = ⟨"meal", "Mid-Day Meal", true⟩ ∧
    getCurrentTimeSlot "13:00" = ⟨"meal", "Mid-Day Meal", true⟩ ∧
    getCurrentTimeSlot "13:01" = ⟨"afternoon", "Afternoon Session", true⟩ ∧
    getCurrentTimeSlot "17:00" = ⟨"afternoon", "Afternoon Session", true⟩ ∧
    getCurrentTimeSlot "23:00" = ⟨"none", "No Active Session", false⟩ := by
  refine ⟨?_, ?_, ?_, ?_, ?_, ?_, ?_, ?_⟩ <;> decide

/-! ### Attendance ledger -/

/-- If the duplicate search fails on a prefix, the search over the extended
list continues in the suffix. -/
theorem find?_append_of_none {α : Type} (p : α → Bool) {l₁ : List α} (l₂ : List α)
    (h : l₁.find? p = none) : (l₁ ++ l₂).find? p = l₂.find? p := by
  rw [List.find?_append, h, Option.none_or]

/-- One mark operation preserves the at-most-one-record-per-triple
invariant. -/
theorem markAttendance_preserves_attKeyUnique (m : Student) (conf : ℤ) (ts : String)
    (session sessionType : Option String) (slot : SlotResult) (newId createdAt : String)
    {l : List AttRecord} (h : attKeyUnique l) :
    attKeyUnique (markAttendance m conf ts session sessionType slot newId createdAt l).2 := by
  unfold markAttendance
  cases hf : l.find? (attKeyMatch m.studentId (jsSlice10 ts) (jsOrStr session slot.name)) with
  | some existing => simpa [hf] using h
  | none =>
      simp only [hf]
      unfold attKeyUnique at h ⊢
      rw [List.pairwise_append]
      refine ⟨h, List.pairwise_singleton _ _, ?_⟩
      intro a ha b hb
      have hb' : b = mkAttRecord m conf ts (jsSlice10 ts) (jsOrStr session slot.name)
          (jsOrStr sessionType slot.type) newId createdAt := by simpa using hb
      subst hb'
      rintro ⟨h1, h2, h3⟩
      apply List.find?_eq_none.mp hf a ha
      simp only [mkAttRecord] at h1 h2 h3
      unfold attKeyMatch
      simp [h1, h2, h3]

/-- Every attendance collection reachable from the empty one satisfies the
per-triple uniqueness invariant. -/
theorem attReachable_attKeyUnique {l : List AttRecord} (h : AttReachable l) :
    attKeyUnique l := by
  induction h with
  | init => exact List.Pairwise.nil
  | step m conf ts session sessionType slot newId createdAt _ ih =>
      exact markAttendance_preserves_attKeyUnique m conf ts session sessionType slot
        newId createdAt ih

/-- C2: marking attendance twice for the same student, the same calendar
date (the first ten characters of the timestamp) and the same session label
yields one created record and one alreadyExists outcome referencing that
same record; the collection grows by exactly one element across the two
calls and the duplicate call appends nothing (and, being a total function,
never raises); moreover every reachable attendance collection holds at most
one record per (studentId, date, session) triple. -/
theorem markAttendance_idempotent_per_key :
    (∀ (m : Student) (c₁ c₂ : ℤ) (ts₁ ts₂ : String) (sess₁ sess₂ st₁ st₂ : Option String)
        (slot₁ slot₂ : SlotResult) (id₁ id₂ ca₁ ca₂ : String) (l : List AttRecord),
      jsSlice10 ts₁ = jsSlice10 ts₂ →
      jsOrStr sess₁ slot₁.name = jsOrStr sess₂ slot₂.name →
      l.find? (attKeyMatch m.studentId (jsSlice10 ts₁) (jsOrStr sess₁ slot₁.name)) = none →
      ∃ r : AttRecord,
        markAttendance m c₁ ts₁ sess₁ st₁ slot₁ id₁ ca₁ l = (.created r, l ++ [r]) ∧
        markAttendance m c₂ ts₂ sess₂ st₂ slot₂ id₂ ca₂ (l ++ [r]) = (.alreadyMarked r, l ++ [r]) ∧
        (l ++ [r]).length = l.length + 1) ∧
    (∀ l, AttReachable l → attKeyUnique l) := by
  constructor
  · intro m c₁ c₂ ts₁ ts₂ sess₁ sess₂ st₁ st₂ slot₁ slot₂ id₁ id₂ ca₁ ca₂ l hdate hsess hnone
    refine ⟨mkAttRecord m c₁ ts₁ (jsSlice10 ts₁) (jsOrStr sess₁ slot₁.name)
      (jsOrStr st₁ slot₁.type) id₁ ca₁, ?_, ?_, by simp⟩
    · unfold markAttendance
      rw [hnone]
    · unfold markAttendance
      rw [← hdate, ← hsess,
        find?_append_of_none _ _ hnone,
        List.find?_cons_of_pos _ (by unfold attKeyMatch mkAttRecord; simp)]
  · exact fun l h => attReachable_attKeyUnique h

/-- Witness for C2 at a concrete student, date and session. -/
theorem markAttendance_idempotent_per_key_witness :
    (∃ r : AttRecord,
      markAttendance stuA 95 "2025-01-15T08:01:00" (some "Morning Session") none
          ⟨"morning", "Morning Session", true⟩ "att_1" "2025-01-15T08:01:00" [] =
        (.created r, [] ++ [r]) ∧
      markAttendance stuA 95 "2025-01-15T09:30:00" (some "Morning Session") none
          ⟨"morning", "Morning Session", true⟩ "att_2" "2025-01-15T09:30:00" ([] ++ [r]) =
        (.alreadyMarked r, [] ++ [r]) ∧
      ([] ++ [r]).length = List.length ([] : List AttRecord) + 1) ∧
    attKeyUnique [] :=
  ⟨markAttendance_idempotent_per_key.1 stuA 95 95 "2025-01-15T08:01:00" "2025-01-15T09:30:00"
      (some "Morning Session") (some "Morning Session") none none
      ⟨"morning", "Morning Session", true⟩ ⟨"morning", "Morning Session", true⟩
      "att_1" "att_2" "2025-01-15T08:01:00" "2025-01-15T09:30:00" []
      (by decide) (by decide) (by decide),
    markAttendance_idempotent_per_key.2 [] AttReachable.init⟩

/-! ### Meal ledger -/

/-- One meal-mark operation preserves the at-most-one-record-per-(student,
date) invariant. -/
theorem markMeal_preserves_mealKeyUnique (studentId ts : String) (students : List Student)
    (newId createdAt : String) {l : List MealRecord} (h : mealKeyUnique l) :
    mealKeyUnique (markMeal studentId ts students newId createdAt l).2 := by
  unfold markMeal
  by_cases hv : (studentId == "" || ts == "") = true
  · simpa [hv] using h
  · simp only [hv, Bool.false_eq_true, if_false]
    cases hs : students.find? (fun s => s.studentId == studentId && s.status == "active") with
    | none => simpa using h
    | some student =>
        simp only
        cases hf : l.find? (mealKeyMatch studentId (jsSplitTHead ts)) with
        | some existing => simpa [hf] using h
        | none =>
            simp only [hf]
            unfold mealKeyUnique at h ⊢
            rw [List.pairwise_append]
            refine ⟨h, List.pairwise_singleton _ _, ?_⟩
            intro a ha b hb
            have hb' : b = mkMealRecord studentId student ts (jsSplitTHead ts) newId createdAt := by
              simpa using hb
            subst hb'
            rintro ⟨h1, h2⟩
            apply List.find?_eq_none.mp hf a ha
            simp only [mkMealRecord] at h1 h2
            unfold mealKeyMatch
            simp [h1, h2]

/-- Every meal collection reachable from the empty one satisfies the
per-(student, date) uniqueness invariant. -/
theorem mealReachable_mealKeyUnique {l : List MealRecord} (h : MealReachable l) :
    mealKeyUnique l := by
  induction h with
  | init => exact List.Pairwise.nil
  | step studentId ts students newId createdAt _ ih =>
      exact markMeal_preserves_mealKeyUnique studentId ts students newId createdAt ih

/-- C6: two meal marks for the same active student with timestamps on the
same calendar date - at any, possibly different, times of day - produce
exactly one record: the first call creates it, the second reports
alreadyMarked with that same record and appends nothing, and the collection
grows by exactly one.  The deduplication key is (studentId, date) only: the
operation takes no session at all, so the session cannot influence it.
Moreover every reachable meal collection holds at most one record per
(studentId, date) pair. -/
theorem markMeal_date_keyed_idempotent :
    (∀ (sid ts₁ ts₂ : String) (students : List Student) (id₁ id₂ ca₁ ca₂ : String)
        (meals : List MealRecord) (stu : Student),
      (sid == "") = false → (ts₁ == "") = false → (ts₂ == "") = false →
      jsSplitTHead ts₁ = jsSplitTHead ts₂ →
      students.find? (fun s => s.studentId == sid && s.status == "active") = some stu →
      meals.find? (mealKeyMatch sid (jsSplitTHead ts₁)) = none →
      ∃ r : MealRecord,
        markMeal sid ts₁ students id₁ ca₁ meals = (.created r, meals ++ [r]) ∧
        markMeal sid ts₂ students id₂ ca₂ (meals ++ [r]) = (.alreadyMarked r, meals ++ [r]) ∧
        (meals ++ [r]).length = meals.length + 1) ∧
    (∀ l, MealReachable l → mealKeyUnique l) := by
  constructor
  · intro sid ts₁ ts₂ students id₁ id₂ ca₁ ca₂ meals stu hv1 hv2 hv3 hdate hstu hnone
    refine ⟨mkMealRecord sid stu ts₁ (jsSplitTHead ts₁) id₁ ca₁, ?_, ?_, by simp⟩
    · unfold markMeal
      rw [hv1, hv2]
      simp only [Bool.or_self, Bool.false_eq_true, if_false, hstu, hnone]
    · unfold markMeal
      rw [hv1, hv3]
      have hpos : mealKeyMatch sid (jsSplitTHead ts₁)
          (mkMealRecord sid stu ts₁ (jsSplitTHead ts₁) id₁ ca₁) = true := by
        simp [mealKeyMatch, mkMealRecord]
      simp only [Bool.or_self, Bool.false_eq_true, if_false, hstu, ← hdate,
        find?_append_of_none _ _ hnone, List.find?_cons_of_pos _ hpos]
  · exact fun l h => mealReachable_mealKeyUnique h

/-- Witness for C6: the same student served at 08:10 and again at 12:30 on
the same day gives one record and one alreadyMarked outcome. -/
theorem markMeal_date_keyed_idempotent_witness :
    (∃ r : MealRecord,
      markMeal "S001" "2025-01-15T08:10:00" [stuA] "MEAL_1" "2025-01-15T08:10:00" [] =
        (.created r, [] ++ [r]) ∧
      markMeal "S001" "2025-01-15T12:30:00" [stuA] "MEAL_2" "2025-01-15T12:30:00" ([] ++ [r]) =
        (.alreadyMarked r, [] ++ [r]) ∧
      ([] ++ [r]).length = List.length ([] : List MealRecord) + 1) ∧
    mealKeyUnique [] :=
  ⟨markMeal_date_keyed_idempotent.1 "S001" "2025-01-15T08:10:00" "2025-01-15T12:30:00" [stuA]
      "MEAL_1" "MEAL_2" "2025-01-15T08:10:00" "2025-01-15T12:30:00" [] stuA
      (by decide) (by decide) (by decide) (by decide) (by decide) (by decide),
    markMeal_date_keyed_idempotent.2 [] MealReachable.init⟩

/-! ### Marking without an active session; the session override (C10) -/

/-- C10 counterexample: a caller-supplied session string that is present but
empty does not override the resolved slot name - the created record is
bucketed under the resolved name Morning Session, not under the supplied
empty string, because the JS fallback (session || slot.name) treats the
empty string as falsy. -/
theorem markAttendance_empty_session_no_override :
    (markAttendance stuA 90 "2025-01-15T14:00:00" (some "") none
        ⟨"morning", "Morning Session", true⟩ "att_9" "2025-01-15T14:00:00" []).1 =
      .created (mkAttRecord stuA 90 "2025-01-15T14:00:00" "2025-01-15" "Morning Session"
        "morning" "att_9" "2025-01-15T14:00:00") ∧
    ("Morning Session" : String) ≠ "" := by
  constructor <;> decide

/-- C10 amended: when a mark request supplies no session label and the
wall-clock time falls outside every configured slot, the attendance is still
recorded: a new record is created whose session is No Active Session and
whose sessionType is none; the resolver's active flag is never read, so an
inactive result cannot block marking; and a caller-supplied session string,
when present and non-empty, overrides the resolved slot name as the
deduplication bucket (a supplied empty string falls back to the resolved
name). -/
theorem markAttendance_records_without_active_session :
    (∀ (m : Student) (c : ℤ) (ts id ca : String) (l : List AttRecord),
      l.find? (attKeyMatch m.studentId (jsSlice10 ts) "No Active Session") = none →
      markAttendance m c ts none none ⟨"none", "No Active Session", false⟩ id ca l =
        (.created (mkAttRecord m c ts (jsSlice10 ts) "No Active Session" "none" id ca),
          l ++ [mkAttRecord m c ts (jsSlice10 ts) "No Active Session" "none" id ca]) ∧
      (mkAttRecord m c ts (jsSlice10 ts) "No Active Session" "none" id ca).session =
        "No Active Session" ∧
      (mkAttRecord m c ts (jsSlice10 ts) "No Active Session" "none" id ca).sessionType = "none") ∧
    (∀ (m : Student) (c : ℤ) (ts : String) (sess st : Option String) (t n : String)
        (a a' : Bool) (id ca : String) (l : List AttRecord),
      markAttendance m c ts sess st ⟨t, n, a⟩ id ca l =
        markAttendance m c ts sess st ⟨t, n, a'⟩ id ca l) ∧
    (∀ (m : Student) (c : ℤ) (ts s : String) (st : Option String) (slot : SlotResult)
        (id ca : String) (l : List AttRecord), s ≠ "" →
      (∀ ex, (markAttendance m c ts (some s) st slot id ca l).1 = .alreadyMarked ex →
        ex.session = s) ∧
      (∀ r, (markAttendance m c ts (some s) st slot id ca l).1 = .created r →
        r.session = s)) := by
  refine ⟨?_, ?_, ?_⟩
  · intro m c ts id ca l hnone
    refine ⟨?_, rfl, rfl⟩
    unfold markAttendance
    have hnone' : l.find? (attKeyMatch m.studentId (jsSlice10 ts)
        (jsOrStr none (SlotResult.mk "none" "No Active Session" false).name)) = none := hnone
    rw [hnone']
    rfl
  · intro m c ts sess st t n a a' id ca l
    rfl
  · intro m c ts s st slot id ca l hs
    have hname : jsOrStr (some s) slot.name = s := by
      simp [jsOrStr, hs]
    constructor
    · intro ex hex
      unfold markAttendance at hex
      cases hf : l.find? (attKeyMatch m.studentId (jsSlice10 ts) (jsOrStr (some s) slot.name)) with
      | some found =>
          rw [hf] at hex
          have hkey := List.find?_some hf
          unfold attKeyMatch at hkey
          simp only [Bool.and_eq_true, beq_iff_eq] at hkey
          cases hex
          exact hkey.2.trans hname
      | none => rw [hf] at hex; cases hex
    · intro r hr
      unfold markAttendance at hr
      cases hf : l.find? (attKeyMatch m.studentId (jsSlice10 ts) (jsOrStr (some s) slot.name)) with
      | some found => rw [hf] at hr; cases hr
      | none =>
          rw [hf] at hr
          cases hr
          unfold mkAttRecord
          simpa using hname

/-- Witness for the amended C10 at the empty ledger and a time outside every
slot. -/
theorem markAttendance_records_without_active_session_witness :
    (markAttendance stuA 88 "2025-01-15T23:30:00" none none
        ⟨"none", "No Active Session", false⟩ "att_7" "2025-01-15T23:30:00" [] =
      (.created (mkAttRecord stuA 88 "2025-01-15T23:30:00" "2025-01-15" "No Active Session"
          "none" "att_7" "2025-01-15T23:30:00"),
        [] ++ [mkAttRecord stuA 88 "2025-01-15T23:30:00" "2025-01-15" "No Active Session"
          "none" "att_7" "2025-01-15T23:30:00"]) ∧
      (mkAttRecord stuA 88 "2025-01-15T23:30:00" "2025-01-15" "No Active Session"
          "none" "att_7" "2025-01-15T23:30:00").session = "No Active Session" ∧
      (mkAttRecord stuA 88 "2025-01-15T23:30:00" "2025-01-15" "No Active Session"
          "none" "att_7" "2025-01-15T23:30:00").sessionType = "none") ∧
    (∀ r, (markAttendance stuA 88 "2025-01-15T10:00:00" (some "Extra Session") none
        ⟨"morning", "Morning Session", true⟩ "att_8" "2025-01-15T10:00:00" []).1 =
        .created r → r.session = "Extra Session") :=
  ⟨by
    have h := markAttendance_records_without_active_session.1 stuA 88 "2025-01-15T23:30:00"
      "att_7" "2025-01-15T23:30:00" [] (by decide)
    simpa using h,
   (markAttendance_records_without_active_session.2.2 stuA 88 "2025-01-15T10:00:00"
      "Extra Session" none ⟨"morning", "Morning Session", true⟩ "att_8" "2025-01-15T10:00:00" []
      (by decide)).2⟩

/-! ### Request-boundary validation (C9) -/

/-- C9 counterexample: an array of 128 elements none of which is a number
passes the route's boundary validation - the handler proceeds into the
matcher - even though validateDescriptor (the element-checking utility the
route does not call) rejects it. -/
theorem validateMarkRequest_accepts_non_numeric_array :
    validateMarkRequest
        { faceDescriptor := some (.arr badElems), timestamp := some "2025-01-15T08:00:00",
          session := none, sessionType := none } = .proceed ∧
    validateDescriptor (.arr badElems) = false := by
  constructor <;> decide

/-- C9 amended: the attendance-mark boundary proceeds into the Matcher
exactly when the request carries a non-empty timestamp and a faceDescriptor
that is an array of exactly 128 elements; a missing descriptor, a non-array
or a wrong-length array is rejected before findBestMatch, but the elements
are not checked for being numbers, so a 128-element array of non-numbers
does reach the Matcher. -/
theorem validateMarkRequest_proceed_iff :
    ∀ req : MarkRequest,
      validateMarkRequest req = .proceed ↔
        ((∃ elems : List JSElem, req.faceDescriptor = some (.arr elems) ∧ elems.length = 128) ∧
          (∃ ts : String, req.timestamp = some ts ∧ ts ≠ "")) := by
  intro req
  obtain ⟨fd, ts, sess, st⟩ := req
  cases fd with
  | none => simp [validateMarkRequest]
  | some d =>
      cases ts with
      | none => simp [validateMarkRequest]
      | some t =>
          by_cases ht : t = ""
          · subst ht
            simp [validateMarkRequest]
          · cases d with
            | arr elems =>
                by_cases hlen : elems.length = 128
                · simp [validateMarkRequest, ht, hlen]
                · simp [validateMarkRequest, ht, hlen]
            | nonArray tag => simp [validateMarkRequest, ht]

/-- Witness for the amended C9: a proper 128-number descriptor with a
non-empty timestamp proceeds. -/
theorem validateMarkRequest_proceed_iff_witness :
    validateMarkRequest
        { faceDescriptor := some (.arr (List.replicate 128 (.num 0))),
          timestamp := some "2025-01-15T08:00:00", session := none, sessionType := none } =
      .proceed :=
  (validateMarkRequest_proceed_iff _).mpr
    ⟨⟨List.replicate 128 (.num 0), rfl, by decide⟩, ⟨"2025-01-15T08:00:00", rfl, by decide⟩⟩

/-! ### Matcher: order facts about distances -/

/-- A distance is never below itself. -/
theorem Dist.lt_irrefl_eq (a : Dist) : Dist.lt a a = false := by
  cases a <;> simp [Dist.lt]

/-- Transitivity of the distance order. -/
theorem Dist.lt_trans_eq {a b c : Dist} (h1 : Dist.lt a b = true) (h2 : Dist.lt b c = true) :
    Dist.lt a c = true := by
  cases a <;> cases b <;> cases c <;> simp_all [Dist.lt]
  linarith

/-- From a < b and not (c < b), conclude a < c (b ≤ c). -/
theorem Dist.lt_resolve {a b c : Dist} (h1 : Dist.lt a b = true) (h2 : Dist.lt c b = false) :
    Dist.lt a c = true := by
  cases a <;> cases b <;> cases c <;> simp_all [Dist.lt]
  linarith

/-- The threshold comparison is monotone in the threshold. -/
theorem Dist.ltQ_mono {d : Dist} {T T' : ℚ} (h : Dist.ltQ d T = true) (hTT : T ≤ T') :
    Dist.ltQ d T' = true := by
  cases d with
  | inf => simp [Dist.ltQ] at h
  | sq s =>
      simp only [Dist.ltQ, Bool.and_eq_true, decide_eq_true_eq] at h ⊢
      obtain ⟨hT, hs⟩ := h
      exact ⟨lt_of_lt_of_le hT hTT, lt_of_lt_of_le hs (by nlinarith)⟩

/-- Infinity is never below a threshold. -/
theorem Dist.ltQ_inf_eq_false (T : ℚ) : Dist.ltQ .inf T = false := rfl

/-! ### Matcher: the running minimum -/

/-- Folding minStep from a present accumulator always yields a value. -/
theorem minFold_isSome : ∀ (l : List ScoredPair) (d : Dist),
    (l.foldl minStep (some d)).isSome = true := by
  intro l
  induction l with
  | nil => intro d; rfl
  | cons p rest ih =>
      intro d
      show (rest.foldl minStep (minStep (some d) p)).isSome = true
      rw [show minStep (some d) p = some (if p.dist.lt d then p.dist else d) from rfl]
      exact ih _

/-- The minimum is none exactly on the empty list. -/
theorem minDistOpt_eq_none_iff (l : List ScoredPair) : minDistOpt l = none ↔ l = [] := by
  cases l with
  | nil => simp [minDistOpt]
  | cons p rest =>
      simp only [minDistOpt, List.foldl_cons]
      constructor
      · intro h
        have := minFold_isSome rest p.dist
        rw [show minStep none p = some p.dist from rfl] at h
        rw [h] at this
        cases this
      · intro h; cases h

/-- The minimum over an extended list combines the old minimum with the new
pair's distance. -/
theorem minDistOpt_append_singleton (l : List ScoredPair) (p : ScoredPair) :
    minDistOpt (l ++ [p]) =
      some (match minDistOpt l with
            | none => p.dist
            | some d => if p.dist.lt d then p.dist else d) := by
  unfold minDistOpt
  rw [List.foldl_append]
  cases h : l.foldl minStep none with
  | none => rfl
  | some d => rfl

/-- The minimum, when present, is attained by the accumulator or by some
listed pair. -/
theorem minFold_mem : ∀ (l : List ScoredPair) (acc : Option Dist) (m : Dist),
    l.foldl minStep acc = some m → acc = some m ∨ ∃ p ∈ l, p.dist = m := by
  intro l
  induction l with
  | nil => intro acc m h; exact Or.inl h
  | cons p rest ih =>
      intro acc m h
      rcases ih (minStep acc p) m h with h' | ⟨q, hq, hqm⟩
      · cases acc with
        | none =>
            right
            refine ⟨p, List.mem_cons_self _ _, ?_⟩
            simpa [minStep] using h'
        | some d =>
            by_cases hlt : p.dist.lt d = true
            · right
              refine ⟨p, List.mem_cons_self _ _, ?_⟩
              simpa [minStep, hlt] using h'
            · left
              simpa [minStep, hlt] using h'
      · exact Or.inr ⟨q, List.mem_cons_of_mem _ hq, hqm⟩

/-- The minimum is a lower bound: no accumulator value and no listed pair is
strictly below it. -/
theorem minFold_not_lt : ∀ (l : List ScoredPair) (acc : Option Dist) (m : Dist),
    l.foldl minStep acc = some m →
    (∀ d, acc = some d → Dist.lt d m = false) ∧ (∀ p ∈ l, Dist.lt p.dist m = false) := by
  intro l
  induction l with
  | nil =>
      intro acc m h
      refine ⟨?_, by simp⟩
      intro d hd
      rw [hd] at h
      obtain rfl : d = m := Option.some.inj h
      exact Dist.lt_irrefl_eq d
  | cons p rest ih =>
      intro acc m h
      obtain ⟨ihacc, ihrest⟩ := ih (minStep acc p) m h
      have hp : Dist.lt p.dist m = false := by
        cases acc with
        | none => exact ihacc p.dist rfl
        | some d =>
            by_cases hlt : p.dist.lt d = true
            · exact ihacc p.dist (by simp [minStep, hlt])
            · have hd : Dist.lt d m = false :=
                ihacc d (by simp [minStep, hlt])
              by_contra hcon
              rw [Bool.not_eq_false] at hcon
              have := Dist.lt_resolve hcon hd
              simp [this] at hlt
      refine ⟨?_, ?_⟩
      · intro d hd
        by_cases hlt : Dist.lt p.dist d = true
        · have hpm : Dist.lt p.dist m = false :=
            ihacc p.dist (by rw [hd]; simp [minStep, hlt])
          by_contra hcon
          rw [Bool.not_eq_false] at hcon
          have htr := Dist.lt_trans_eq hlt hcon
          rw [htr] at hpm
          cases hpm
        · exact ihacc d (by rw [hd]; simp [minStep, hlt])
      · intro q hq
        rcases List.mem_cons.mp hq with rfl | hq'
        · exact hp
        · exact ihrest q hq'

/-- When the qualifying pairs have minimum m, the first-seen pair at
distance m exists, attains m and qualifies. -/
theorem specSelect_find_of_min {T : ℚ} {ps : List ScoredPair} {m : Dist}
    (hmin : minDistOpt (ps.filter (fun x => Dist.ltQ x.dist T)) = some m) :
    ∃ r, ps.find? (fun x => decide (x.dist = m)) = some r ∧ r.dist = m ∧
      Dist.ltQ m T = true := by
  rcases minFold_mem _ none m hmin with h | ⟨x, hxF, hxd⟩
  · cases h
  · obtain ⟨hxps, hxq⟩ := List.mem_filter.mp hxF
    have hsome : (ps.find? (fun x => decide (x.dist = m))).isSome := by
      rw [List.find?_isSome]
      exact ⟨x, hxps, by simp [hxd]⟩
    obtain ⟨r, hr⟩ := Option.isSome_iff_exists.mp hsome
    have hrd : r.dist = m := by simpa using List.find?_some hr
    exact ⟨r, hr, hrd, by rw [← hxd]; exact hxq⟩

/-- specSelect with no qualifying pair. -/
theorem specSelect_eq_none {T : ℚ} {ps : List ScoredPair}
    (hmin : minDistOpt (ps.filter (fun x => Dist.ltQ x.dist T)) = none) :
    specSelect T ps = none := by
  unfold specSelect
  rw [hmin]

/-- specSelect with qualifying minimum m. -/
theorem specSelect_eq_some {T : ℚ} {ps : List ScoredPair} {m : Dist}
    (hmin : minDistOpt (ps.filter (fun x => Dist.ltQ x.dist T)) = some m) :
    specSelect T ps = ps.find? (fun x => decide (x.dist = m)) := by
  unfold specSelect
  rw [hmin]

/-- The matcher's fold over the scan pairs computes exactly the
first-seen-minimum-below-threshold selection. -/
theorem scanPairs_eq_specSelect (T : ℚ) (ps : List ScoredPair) :
    scanPairs T none ps = specSelect T ps := by
  induction ps using List.reverseRecOn with
  | nil => rfl
  | append_singleton ps p ih =>
    have hscan : scanPairs T none (ps ++ [p]) = stepPair T (specSelect T ps) p := by
      unfold scanPairs
      rw [List.foldl_append, ← ih]
      rfl
    rw [hscan]
    by_cases hq : Dist.ltQ p.dist T = true
    · have hfa : (ps ++ [p]).filter (fun x => Dist.ltQ x.dist T) =
          ps.filter (fun x => Dist.ltQ x.dist T) ++ [p] := by
        rw [List.filter_append]
        simp [hq]
      cases hmin : minDistOpt (ps.filter (fun x => Dist.ltQ x.dist T)) with
      | none =>
          have hF : ps.filter (fun x => Dist.ltQ x.dist T) = [] :=
            (minDistOpt_eq_none_iff _).mp hmin
          have hnone : ps.find? (fun x => decide (x.dist = p.dist)) = none := by
            rw [List.find?_eq_none]
            intro x hx
            simp only [decide_eq_true_eq]
            intro hxd
            have hxq : Dist.ltQ x.dist T = true := by rw [hxd]; exact hq
            have hmem : x ∈ ps.filter (fun x => Dist.ltQ x.dist T) :=
              List.mem_filter.mpr ⟨hx, hxq⟩
            rw [hF] at hmem
            cases hmem
          have hmin' : minDistOpt ((ps ++ [p]).filter (fun x => Dist.ltQ x.dist T)) =
              some p.dist := by
            rw [hfa, hF]
            rfl
          rw [specSelect_eq_none hmin, specSelect_eq_some hmin',
            List.find?_append, hnone]
          rw [show List.find? (fun x => decide (x.dist = p.dist)) [p] = some p by simp]
          simp [stepPair, hq]
      | some m =>
          obtain ⟨r, hr, hrd, hmq⟩ := specSelect_find_of_min hmin
          rw [specSelect_eq_some hmin, hr]
          by_cases hlt : Dist.lt p.dist m = true
          · have hnone : ps.find? (fun x => decide (x.dist = p.dist)) = none := by
              rw [List.find?_eq_none]
              intro x hx
              simp only [decide_eq_true_eq]
              intro hxd
              have hxq : Dist.ltQ x.dist T = true := by rw [hxd]; exact hq
              have hmem : x ∈ ps.filter (fun x => Dist.ltQ x.dist T) :=
                List.mem_filter.mpr ⟨hx, hxq⟩
              have hxm := (minFold_not_lt _ none m hmin).2 x hmem
              rw [hxd] at hxm
              rw [hxm] at hlt
              cases hlt
            have hmin' : minDistOpt ((ps ++ [p]).filter (fun x => Dist.ltQ x.dist T)) =
                some p.dist := by
              rw [hfa, minDistOpt_append_singleton, hmin]
              simp [hlt]
            rw [specSelect_eq_some hmin', List.find?_append, hnone]
            rw [show List.find? (fun x => decide (x.dist = p.dist)) [p] = some p by simp]
            simp [stepPair, hq, hrd, hlt]
          · have hmin' : minDistOpt ((ps ++ [p]).filter (fun x => Dist.ltQ x.dist T)) =
                some m := by
              rw [hfa, minDistOpt_append_singleton, hmin]
              simp [hlt]
            rw [specSelect_eq_some hmin', List.find?_append, hr]
            simp [stepPair, hq, hrd, hlt]
    · have hfa : (ps ++ [p]).filter (fun x => Dist.ltQ x.dist T) =
          ps.filter (fun x => Dist.ltQ x.dist T) := by
        rw [List.filter_append]
        simp [hq]
      cases hmin : minDistOpt (ps.filter (fun x => Dist.ltQ x.dist T)) with
      | none =>
          have hmin' : minDistOpt ((ps ++ [p]).filter (fun x => Dist.ltQ x.dist T)) = none := by
            rw [hfa, hmin]
          rw [specSelect_eq_none hmin, specSelect_eq_none hmin']
          simp [stepPair, hq]
      | some m =>
          obtain ⟨r, hr, hrd, hmq⟩ := specSelect_find_of_min hmin
          have hmin' : minDistOpt ((ps ++ [p]).filter (fun x => Dist.ltQ x.dist T)) =
              some m := by
            rw [hfa, hmin]
          rw [specSelect_eq_some hmin, specSelect_eq_some hmin', hr,
            List.find?_append, hr]
          simp [stepPair, hq]

/-- The per-descriptor inner loop of findBestMatch is the pair scan over the
pairs this student contributes, in descriptor order. -/
theorem descFold_eq (input : List ℚ) (s : Student) (T : ℚ) :
    ∀ (ds : List (List ℚ)) (osp : Option ScoredPair),
    ds.foldl
      (fun acc descriptor =>
        let dist := euclideanDistance (some input) (some descriptor)
        let improves :=
          match acc.1 with
          | none => true
          | some b => dist.lt b.distance
        if dist.ltQ T && improves then
          (some { distance := dist, confidence := dist.confidence }, some s)
        else acc)
      (toResult osp)
    = toResult (scanPairs T osp
        (ds.map (fun d => ⟨s, euclideanDistance (some input) (some d)⟩))) := by
  intro ds
  induction ds with
  | nil => intro osp; rfl
  | cons d ds ih =>
      intro osp
      have hstep :
          (let dist := euclideanDistance (some input) (some d)
           let improves :=
             match (toResult osp).1 with
             | none => true
             | some b => dist.lt b.distance
           if dist.ltQ T && improves then
             ((some { distance := dist, confidence := dist.confidence } : Option BestMatch),
               (some s : Option Student))
           else toResult osp)
          = toResult (stepPair T osp ⟨s, euclideanDistance (some input) (some d)⟩) := by
        cases osp with
        | none =>
            by_cases hg : Dist.ltQ (euclideanDistance (some input) (some d)) T = true <;>
              simp [toResult, stepPair, hg]
        | some b =>
            by_cases hg : Dist.ltQ (euclideanDistance (some input) (some d)) T = true <;>
              by_cases hi : Dist.lt (euclideanDistance (some input) (some d)) b.dist = true <;>
                simp [toResult, stepPair, hg, hi]
      rw [List.foldl_cons, hstep]
      rw [List.map_cons,
        show scanPairs T osp (⟨s, euclideanDistance (some input) (some d)⟩ ::
          ds.map (fun d => ⟨s, euclideanDistance (some input) (some d)⟩)) =
        scanPairs T (stepPair T osp ⟨s, euclideanDistance (some input) (some d)⟩)
          (ds.map (fun d => ⟨s, euclideanDistance (some input) (some d)⟩)) from rfl]
      exact ih _

/-- The full student loop of findBestMatch is the pair scan over the whole
eligible-pair list. -/
theorem studentFold_eq (input : List ℚ) (T : ℚ) :
    ∀ (students : List Student) (osp : Option ScoredPair),
    students.foldl
      (fun acc student =>
        if student.status != "active" || student.faceData.isNone then acc
        else
          (student.faceData.getD []).foldl
            (fun acc descriptor =>
              let dist := euclideanDistance (some input) (some descriptor)
              let improves :=
                match acc.1 with
                | none => true
                | some b => dist.lt b.distance
              if dist.ltQ T && improves then
                (some { distance := dist, confidence := dist.confidence }, some student)
              else acc)
            acc)
      (toResult osp)
    = toResult (scanPairs T osp (eligiblePairs input students)) := by
  intro students
  induction students with
  | nil => intro osp; rfl
  | cons s rest ih =>
      intro osp
      rw [List.foldl_cons]
      by_cases hskip : (s.status != "active" || s.faceData.isNone) = true
      · have hsp : studentPairs input s = [] := by
          unfold studentPairs
          rw [if_pos hskip]
        rw [show eligiblePairs input (s :: rest) =
          studentPairs input s ++ eligiblePairs input rest from rfl, hsp, List.nil_append]
        simpa only [if_pos hskip] using ih osp
      · have hsp : studentPairs input s =
            (s.faceData.getD []).map (fun d => ⟨s, euclideanDistance (some input) (some d)⟩) := by
          unfold studentPairs
          rw [if_neg hskip]
        simp only [if_neg hskip]
        rw [descFold_eq input s T (s.faceData.getD []) osp]
        rw [ih (scanPairs T osp
          ((s.faceData.getD []).map (fun d => ⟨s, euclideanDistance (some input) (some d)⟩)))]
        rw [show eligiblePairs input (s :: rest) =
          studentPairs input s ++ eligiblePairs input rest from rfl, hsp]
        unfold scanPairs
        rw [List.foldl_append]

/-- findBestMatch projected through toResult equals matchSpec.  Shared
backbone for the matcher claims. -/
theorem findBestMatch_eq_matchSpec (input : List ℚ) (students : List Student) (T : ℚ) :
    findBestMatch input students T = toResult (matchSpec input students T) := by
  unfold findBestMatch matchSpec
  rw [show ((none, none) : Option BestMatch × Option Student) = toResult none from rfl]
  rw [studentFold_eq input T students none]
  rw [scanPairs_eq_specSelect]

/-- C1: the Matcher follows its specification exactly: it considers only
candidates with status active and a present descriptor set, scanning every
(student, descriptor) pair in the candidate list's iteration order
(eligiblePairs); a pair becomes the current best only if its distance is
strictly less than both the threshold and the best distance so far, so ties
keep the first-seen best; and it returns no match exactly when no pair's
distance is below the threshold - all of which the specification function
matchSpec (first-seen pair attaining the minimum qualifying distance, none
when there is no qualifying pair) states, and this theorem equates to the
code. -/
theorem findBestMatch_follows_matcher_spec (input : List ℚ) (students : List Student) (T : ℚ) :
    findBestMatch input students T = toResult (matchSpec input students T) :=
  findBestMatch_eq_matchSpec input students T

/-- Inversion of toResult on a full match. -/
theorem toResult_eq_some {o : Option ScoredPair} {b : BestMatch} {s : Student}
    (h : toResult o = (some b, some s)) :
    ∃ p, o = some p ∧ b = ⟨p.dist, p.dist.confidence⟩ ∧ s = p.student := by
  cases o with
  | none =>
      exfalso
      have := congrArg Prod.fst h
      simp [toResult] at this
  | some p =>
      refine ⟨p, rfl, ?_, ?_⟩
      · have := congrArg Prod.fst h
        simp only [toResult, Option.map_some'] at this
        exact (Option.some.inj this).symm
      · have := congrArg Prod.snd h
        simp only [toResult, Option.map_some'] at this
        exact (Option.some.inj this).symm

/-- What a selected pair satisfies: it is one of the scanned pairs, its
distance beats the threshold, and its distance is the minimum qualifying
distance. -/
theorem matchSpec_some {input : List ℚ} {students : List Student} {T : ℚ} {p : ScoredPair}
    (h : matchSpec input students T = some p) :
    p ∈ eligiblePairs input students ∧ Dist.ltQ p.dist T = true ∧
      minDistOpt ((eligiblePairs input students).filter (fun x => Dist.ltQ x.dist T)) =
        some p.dist := by
  unfold matchSpec at h
  cases hmin : minDistOpt ((eligiblePairs input students).filter (fun x => Dist.ltQ x.dist T)) with
  | none =>
      rw [specSelect_eq_none hmin] at h
      cases h
  | some m =>
      rw [specSelect_eq_some hmin] at h
      have hmem := List.mem_of_find?_eq_some h
      have hpd : p.dist = m := by simpa using List.find?_some h
      obtain ⟨r, hr, hrd, hmq⟩ := specSelect_find_of_min hmin
      refine ⟨hmem, ?_, ?_⟩
      · rw [hpd]
        exact hmq
      · rw [hpd]

/-- A returned match always has its distance strictly below the threshold. -/
theorem findBestMatch_ltQ {input : List ℚ} {students : List Student} {T : ℚ}
    {b : BestMatch} {s : Student} (h : findBestMatch input students T = (some b, some s)) :
    Dist.ltQ b.distance T = true := by
  rw [findBestMatch_eq_matchSpec] at h
  obtain ⟨p, hp, hb, _⟩ := toResult_eq_some h
  obtain ⟨_, hq, _⟩ := matchSpec_some hp
  rw [hb]
  exact hq

/-- C7: threshold monotonicity - a match at threshold T remains a match at
every larger threshold, with a distance no larger than before. -/
theorem findBestMatch_threshold_monotone (input : List ℚ) (students : List Student)
    (T T' : ℚ) (hTT : T < T') (b : BestMatch) (s : Student)
    (h : findBestMatch input students T = (some b, some s)) :
    ∃ (b' : BestMatch) (s' : Student),
      findBestMatch input students T' = (some b', some s') ∧
      Dist.le b'.distance b.distance = true := by
  rw [findBestMatch_eq_matchSpec] at h
  obtain ⟨p, hp, hb, hs⟩ := toResult_eq_some h
  obtain ⟨hmem, hq, hmin⟩ := matchSpec_some hp
  have hq' : Dist.ltQ p.dist T' = true := Dist.ltQ_mono hq (le_of_lt hTT)
  have hpF' : p ∈ (eligiblePairs input students).filter (fun x => Dist.ltQ x.dist T') :=
    List.mem_filter.mpr ⟨hmem, hq'⟩
  cases hmin' : minDistOpt
      ((eligiblePairs input students).filter (fun x => Dist.ltQ x.dist T')) with
  | none =>
      exfalso
      have := (minDistOpt_eq_none_iff _).mp hmin'
      rw [this] at hpF'
      cases hpF'
  | some m' =>
      obtain ⟨r, hr, hrd, hm'q⟩ := specSelect_find_of_min hmin'
      refine ⟨⟨r.dist, r.dist.confidence⟩, r.student, ?_, ?_⟩
      · rw [findBestMatch_eq_matchSpec]
        unfold matchSpec
        rw [specSelect_eq_some hmin', hr]
        rfl
      · have hple := (minFold_not_lt _ none m' hmin').2 p hpF'
        rw [hb]
        unfold Dist.le
        simp only
        rw [hrd, hple]
        rfl

/-- Evaluation fact: the confidence of an exact match (distance 0) is 100. -/
theorem confidence_sq_zero : Dist.confidence (.sq 0) = 100 := by decide

/-- Evaluation fact: the confidence at distance 2 (squared distance 4) is
-100, the unclamped value of round((1 - 2) * 100). -/
theorem confidence_sq_four : Dist.confidence (.sq 4) = -100 := by decide

/-- Witness for C7: a student at distance 0 matches at threshold 1 and at
threshold 2, the latter no farther. -/
theorem findBestMatch_threshold_monotone_witness :
    ∃ (b' : BestMatch) (s' : Student),
      findBestMatch [0] [stuA] 2 = (some b', some s') ∧
      Dist.le b'.distance (Dist.sq 0) = true :=
  findBestMatch_threshold_monotone [0] [stuA] 1 2 (by decide)
    ⟨.sq 0, 100⟩ stuA
    (by simp [findBestMatch, stuA, euclideanDistance, sumSqDiff, Dist.ltQ, Dist.lt,
      confidence_sq_zero])

/-- C8: the distance function is total (it is a Lean function) and returns
the Infinity sentinel - larger than any rational threshold in the order the
matcher uses - when either input is missing or the lengths differ, instead
of failing; and the Matcher never selects a match whose distance is the
sentinel. -/
theorem euclideanDistance_sentinel_never_matched :
    (∀ d, euclideanDistance none d = .inf) ∧
    (∀ d, euclideanDistance d none = .inf) ∧
    (∀ a b : List ℚ, a.length ≠ b.length → euclideanDistance (some a) (some b) = .inf) ∧
    (∀ T : ℚ, Dist.ltQ .inf T = false) ∧
    (∀ (input : List ℚ) (students : List Student) (T : ℚ) (b : BestMatch) (s : Student),
      findBestMatch input students T = (some b, some s) → b.distance ≠ .inf) := by
  refine ⟨?_, ?_, ?_, fun _ => rfl, ?_⟩
  · intro d; cases d <;> rfl
  · intro d; cases d <;> rfl
  · intro a b hab
    show (if (a.length != b.length) = true then Dist.inf else Dist.sq (sumSqDiff a b)) = Dist.inf
    rw [if_pos (by simpa using hab)]
  · intro input students T b s h
    have hq := findBestMatch_ltQ h
    intro hinf
    rw [hinf] at hq
    cases hq

/-- Witness for C8 at concrete inputs: a missing side and a length mismatch
give the sentinel, and a concrete returned match has a finite distance. -/
theorem euclideanDistance_sentinel_never_matched_witness :
    euclideanDistance none (some [0]) = .inf ∧
    euclideanDistance (some [0]) none = .inf ∧
    euclideanDistance (some [0]) (some []) = .inf ∧
    (⟨Dist.sq 0, 100⟩ : BestMatch).distance ≠ .inf :=
  ⟨euclideanDistance_sentinel_never_matched.1 (some [0]),
   euclideanDistance_sentinel_never_matched.2.1 (some [0]),
   euclideanDistance_sentinel_never_matched.2.2.1 [0] [] (by decide),
   euclideanDistance_sentinel_never_matched.2.2.2.2 [0] [stuA] 1 ⟨.sq 0, 100⟩ stuA
     (by simp [findBestMatch, stuA, euclideanDistance, sumSqDiff, Dist.ltQ, Dist.lt,
       confidence_sq_zero])⟩

/-- C3 counterexample: with threshold 3, probing a student whose stored
descriptor lies at exact distance 2 returns a match with reported
confidence -100 = round((1 - 2) * 100): the value is negative, not clamped
to 0, although the matched distance exceeds 1. -/
theorem findBestMatch_confidence_negative :
    findBestMatch [0] [stuB] 3 = (some ⟨.sq 4, -100⟩, some stuB) ∧
    (-100 : ℤ) < 0 ∧ (1 : ℝ) < Real.sqrt ((4 : ℚ) : ℝ) := by
  refine ⟨?_, by norm_num, ?_⟩
  · norm_num [findBestMatch, stuB, euclideanDistance, sumSqDiff, Dist.ltQ, Dist.lt,
      confidence_sq_four]
    simp
  · rw [show ((4 : ℚ) : ℝ) = 4 by norm_num]
    rw [show (1 : ℝ) = Real.sqrt 1 by rw [Real.sqrt_one]]
    exact Real.sqrt_lt_sqrt (by norm_num) (by norm_num)

/-! ### The real-number semantics of the exact distance representation -/

/-- The fuel-driven integer square root is correct whenever the fuel is at
least the argument. -/
theorem isqrtGo_spec : ∀ (fuel n : ℕ), n ≤ fuel →
    isqrtGo n fuel * isqrtGo n fuel ≤ n ∧ n < (isqrtGo n fuel + 1) * (isqrtGo n fuel + 1) := by
  intro fuel
  induction fuel with
  | zero =>
      intro n hn
      obtain rfl : n = 0 := Nat.le_zero.mp hn
      exact ⟨le_rfl, by norm_num [isqrtGo]⟩
  | succ fuel ih =>
      intro n hn
      by_cases h0 : n = 0
      · subst h0
        simp [isqrtGo]
      · have hrec : n / 4 ≤ fuel := by
          have h1 : n / 4 < n := Nat.div_lt_self (Nat.pos_of_ne_zero h0) (by norm_num)
          omega
        obtain ⟨ih1, ih2⟩ := ih (n / 4) hrec
        have hgo : isqrtGo n (fuel + 1) =
            (if (2 * isqrtGo (n / 4) fuel + 1) * (2 * isqrtGo (n / 4) fuel + 1) ≤ n
             then 2 * isqrtGo (n / 4) fuel + 1 else 2 * isqrtGo (n / 4) fuel) := by
          simp only [isqrtGo, h0, if_false]
        set s := isqrtGo (n / 4) fuel with hs
        have hub : n < 4 * ((s + 1) * (s + 1)) := by
          have h4 := (Nat.div_lt_iff_lt_mul (by norm_num : 0 < 4)).mp ih2
          linarith [h4]
        have hlb : 4 * (s * s) ≤ n := by
          calc 4 * (s * s) = s * s * 4 := by ring
            _ ≤ n / 4 * 4 := Nat.mul_le_mul_right 4 ih1
            _ ≤ n := Nat.div_mul_le_self n 4
        rw [hgo]
        by_cases hc : (2 * s + 1) * (2 * s + 1) ≤ n
        · rw [if_pos hc]
          refine ⟨hc, ?_⟩
          calc n < 4 * ((s + 1) * (s + 1)) := hub
            _ = (2 * s + 1 + 1) * (2 * s + 1 + 1) := by ring
        · rw [if_neg hc]
          refine ⟨?_, Nat.lt_of_not_le hc⟩
          calc 2 * s * (2 * s) = 4 * (s * s) := by ring
            _ ≤ n := hlb

/-- Correctness of isqrt. -/
theorem isqrt_spec (n : ℕ) : isqrt n * isqrt n ≤ n ∧ n < (isqrt n + 1) * (isqrt n + 1) :=
  isqrtGo_spec n n le_rfl

/-- ceilSqrt computes the ceiling of the real square root. -/
theorem ceilSqrt_spec (n : ℕ) : ⌈Real.sqrt (n : ℝ)⌉ = (ceilSqrt n : ℤ) := by
  obtain ⟨h1, h2⟩ := isqrt_spec n
  unfold ceilSqrt
  by_cases hp : isqrt n * isqrt n = n
  · rw [if_pos hp]
    have hcast : ((n : ℕ) : ℝ) = (isqrt n : ℝ) ^ 2 := by
      have h' : ((isqrt n * isqrt n : ℕ) : ℝ) = (isqrt n : ℝ) ^ 2 := by
        push_cast
        ring
      rw [hp] at h'
      exact h'
    rw [hcast, Real.sqrt_sq (by positivity)]
    exact_mod_cast Int.ceil_natCast (isqrt n)
  · rw [if_neg hp]
    have hlt : (isqrt n : ℝ) < Real.sqrt (n : ℝ) := by
      rw [Real.lt_sqrt (by positivity)]
      have hstrict : isqrt n * isqrt n < n := lt_of_le_of_ne h1 hp
      rw [sq]
      exact_mod_cast hstrict
    have hle : Real.sqrt (n : ℝ) ≤ (isqrt n : ℝ) + 1 := by
      rw [show ((isqrt n : ℝ) + 1) = (((isqrt n + 1 : ℕ)) : ℝ) by push_cast; ring]
      rw [← Real.sqrt_sq (by positivity : (0 : ℝ) ≤ (((isqrt n + 1 : ℕ)) : ℝ))]
      apply Real.sqrt_le_sqrt
      rw [sq]
      exact_mod_cast le_of_lt h2
    rw [show ((isqrt n + 1 : ℕ) : ℤ) = (isqrt n : ℤ) + 1 by push_cast; ring]
    rw [Int.ceil_eq_iff]
    constructor
    · push_cast
      linarith [hlt]
    · push_cast
      exact hle

/-- Floor of a real divided by a positive natural, through the integer
floor division. -/
theorem floor_div_nat (x : ℝ) (m : ℕ) (hm : 0 < m) : ⌊x / (m : ℝ)⌋ = ⌊x⌋ / (m : ℤ) := by
  have key : ∀ z : ℤ, z ≤ ⌊x / (m : ℝ)⌋ ↔ z ≤ ⌊x⌋ / (m : ℤ) := by
    intro z
    rw [Int.le_floor, le_div_iff₀ (show (0 : ℝ) < m by exact_mod_cast hm),
      Int.le_ediv_iff_mul_le (show (0 : ℤ) < m by exact_mod_cast hm), Int.le_floor]
    push_cast
    rfl
  exact le_antisymm ((key _).mp le_rfl) ((key _).mpr le_rfl)

/-- The sum-of-squares accumulator never becomes negative. -/
theorem sqSumFold_nonneg : ∀ (l : List (ℚ × ℚ)) (acc : ℚ), 0 ≤ acc →
    0 ≤ l.foldl (fun sum d => sum + (d.1 - d.2) * (d.1 - d.2)) acc := by
  intro l
  induction l with
  | nil => intro acc h; exact h
  | cons d rest ih =>
      intro acc h
      refine ih _ ?_
      show 0 ≤ acc + (d.1 - d.2) * (d.1 - d.2)
      have hsq := mul_self_nonneg (d.1 - d.2)
      linarith

/-- The sum of squared differences is nonnegative. -/
theorem sumSqDiff_nonneg (a b : List ℚ) : 0 ≤ sumSqDiff a b :=
  sqSumFold_nonneg _ 0 le_rfl

/-- Every distance the comparator produces on present inputs is the
sentinel or the square root of a nonnegative rational. -/
theorem euclideanDistance_cases (a b : List ℚ) :
    euclideanDistance (some a) (some b) = .inf ∨
    ∃ s : ℚ, 0 ≤ s ∧ euclideanDistance (some a) (some b) = .sq s := by
  show (if (a.length != b.length) = true then Dist.inf else Dist.sq (sumSqDiff a b)) = _ ∨ _
  by_cases h : (a.length != b.length) = true
  · left
    rw [if_pos h]
  · right
    refine ⟨sumSqDiff a b, sumSqDiff_nonneg a b, ?_⟩
    show (if (a.length != b.length) = true then Dist.inf else Dist.sq (sumSqDiff a b)) =
      Dist.sq (sumSqDiff a b)
    rw [if_neg h]

/-- Every scanned pair's distance came from the comparator applied to the
probe and one stored descriptor. -/
theorem eligiblePairs_dist_shape {input : List ℚ} :
    ∀ {students : List Student} {p : ScoredPair}, p ∈ eligiblePairs input students →
    ∃ d, p.dist = euclideanDistance (some input) (some d) := by
  intro students
  induction students with
  | nil => intro p hp; cases hp
  | cons s rest ih =>
      intro p hp
      have hp' : p ∈ studentPairs input s ++ eligiblePairs input rest := hp
      rcases List.mem_append.mp hp' with h | h
      · unfold studentPairs at h
        by_cases hskip : (s.status != "active" || s.faceData.isNone) = true
        · rw [if_pos hskip] at h
          cases h
        · rw [if_neg hskip] at h
          obtain ⟨d, _, hd⟩ := List.mem_map.mp h
          exact ⟨d, by rw [← hd]⟩
      · exact ih h

/-- The threshold comparison in the exact representation agrees with the
real-number comparison Math.sqrt s < t. -/
theorem distLtQ_iff_sqrt_lt (s : ℚ) (_hs : 0 ≤ s) (t : ℚ) :
    Dist.ltQ (.sq s) t = true ↔ Real.sqrt ((s : ℚ) : ℝ) < (t : ℝ) := by
  simp only [Dist.ltQ, Bool.and_eq_true, decide_eq_true_eq]
  constructor
  · rintro ⟨ht, hst⟩
    rw [Real.sqrt_lt' (by exact_mod_cast ht)]
    rw [sq]
    exact_mod_cast hst
  · intro h
    have ht : (0 : ℝ) < t := lt_of_le_of_lt (Real.sqrt_nonneg _) h
    have ht' : (0 : ℚ) < t := by exact_mod_cast ht
    refine ⟨ht', ?_⟩
    rw [Real.sqrt_lt' (by exact_mod_cast ht'), sq] at h
    exact_mod_cast h

/-- The exact confidence equals Math.round((1 - Math.sqrt s) * 100), where
Math.round x = ⌊x + 1/2⌋. -/
theorem confidence_eq_round (s : ℚ) (hs : 0 ≤ s) :
    (Dist.sq s).confidence = ⌊(1 - Real.sqrt ((s : ℚ) : ℝ)) * 100 + 1 / 2⌋ := by
  have hq0 : 0 < s.den := s.pos
  have hnum : s.num = (s.num.toNat : ℤ) :=
    (Int.toNat_of_nonneg (Rat.num_nonneg.mpr hs)).symm
  have hcast : ((s : ℚ) : ℝ) = (s.num.toNat : ℝ) / (s.den : ℝ) := by
    rw [Rat.cast_def, hnum]
    push_cast
    rfl
  have hsqN : Real.sqrt ((40000 * s.num.toNat * s.den : ℕ) : ℝ) =
      200 * Real.sqrt (s.num.toNat : ℝ) * Real.sqrt (s.den : ℝ) := by
    have hN : ((40000 * s.num.toNat * s.den : ℕ) : ℝ) =
        (200 : ℝ) ^ 2 * ((s.num.toNat : ℝ) * (s.den : ℝ)) := by
      push_cast
      ring
    rw [hN, Real.sqrt_mul (by positivity), Real.sqrt_sq (by norm_num),
      Real.sqrt_mul (by positivity)]
    ring
  have hkey : (1 - Real.sqrt ((s : ℚ) : ℝ)) * 100 + 1 / 2 =
      (((201 * s.den : ℕ) : ℝ) - Real.sqrt ((40000 * s.num.toNat * s.den : ℕ) : ℝ)) /
        ((2 * s.den : ℕ) : ℝ) := by
    rw [eq_div_iff (by positivity : ((2 * s.den : ℕ) : ℝ) ≠ 0)]
    rw [hcast, hsqN, Real.sqrt_div (by positivity)]
    set u := Real.sqrt (s.num.toNat : ℝ) with hu
    set t := Real.sqrt (s.den : ℝ) with ht
    have ht0 : (0 : ℝ) < t := Real.sqrt_pos.mpr (by exact_mod_cast hq0)
    have htt : t * t = (s.den : ℝ) := Real.mul_self_sqrt (by positivity)
    push_cast
    rw [← htt]
    field_simp
    ring
  rw [hkey, floor_div_nat _ (2 * s.den) (by positivity)]
  have hfl : ⌊((201 * s.den : ℕ) : ℝ) - Real.sqrt ((40000 * s.num.toNat * s.den : ℕ) : ℝ)⌋ =
      (201 * s.den : ℤ) - (ceilSqrt (40000 * s.num.toNat * s.den) : ℤ) := by
    rw [sub_eq_neg_add,
      show ((201 * s.den : ℕ) : ℝ) = (((201 * s.den : ℕ) : ℤ) : ℝ) by push_cast; ring,
      Int.floor_add_int, Int.floor_neg, ceilSqrt_spec]
    push_cast
    ring
  rw [hfl]
  show (201 * (s.den : ℤ) - (ceilSqrt (40000 * s.num.toNat * s.den) : ℤ)) /
      (2 * (s.den : ℤ)) = _
  norm_cast

/-- C3 amended: for every match returned by the Matcher the reported
confidence equals round((1 - distance) * 100) - where Math.round x is
⌊x + 1/2⌋ and distance is the square root of the rational sum of squared
differences - with NO clamping at 0: the value is guaranteed nonnegative
only when the threshold is at most 1 (as the default 0.6 is); a matched
distance above 1, reachable only with a threshold above 1, yields a negative
confidence (see the counterexample). -/
theorem findBestMatch_confidence_round (input : List ℚ) (students : List Student) (T : ℚ)
    (b : BestMatch) (s : Student) (h : findBestMatch input students T = (some b, some s)) :
    ∃ sq : ℚ, 0 ≤ sq ∧ b.distance = .sq sq ∧
      b.confidence = ⌊(1 - Real.sqrt ((sq : ℚ) : ℝ)) * 100 + 1 / 2⌋ ∧
      (T ≤ 1 → 0 ≤ b.confidence) := by
  rw [findBestMatch_eq_matchSpec] at h
  obtain ⟨p, hp, hb, hs⟩ := toResult_eq_some h
  obtain ⟨hmem, hpq, _⟩ := matchSpec_some hp
  obtain ⟨d, hd⟩ := eligiblePairs_dist_shape hmem
  rcases euclideanDistance_cases input d with hinf | ⟨sq, hsq0, hsq⟩
  · rw [hinf] at hd
    rw [hd] at hpq
    cases hpq
  · rw [hsq] at hd
    have hbd : b.distance = .sq sq := by
      rw [hb]
      exact hd
    have hbc : b.confidence = (Dist.sq sq).confidence := by
      rw [hb]
      show p.dist.confidence = _
      rw [hd]
    refine ⟨sq, hsq0, hbd, ?_, ?_⟩
    · rw [hbc, confidence_eq_round sq hsq0]
    · intro hT1
      rw [hd] at hpq
      simp only [Dist.ltQ, Bool.and_eq_true, decide_eq_true_eq] at hpq
      obtain ⟨hT0, hsqT⟩ := hpq
      have hsq1 : sq < 1 := lt_of_lt_of_le hsqT (by nlinarith)
      rw [hbc, confidence_eq_round sq hsq0]
      have hlt1 : Real.sqrt ((sq : ℚ) : ℝ) < 1 := by
        rw [show (1 : ℝ) = Real.sqrt 1 by rw [Real.sqrt_one]]
        exact Real.sqrt_lt_sqrt (by exact_mod_cast hsq0) (by exact_mod_cast hsq1)
      have hpos : (0 : ℝ) ≤ (1 - Real.sqrt ((sq : ℚ) : ℝ)) * 100 + 1 / 2 := by
        nlinarith [Real.sqrt_nonneg ((sq : ℚ) : ℝ)]
      exact Int.le_floor.mpr (by simpa using hpos)

/-- Witness for the amended C3: an exact match at the default-like threshold
1 has squared distance 0 and confidence 100 = round((1 - 0) * 100) ≥ 0. -/
theorem findBestMatch_confidence_round_witness :
    ∃ sq : ℚ, 0 ≤ sq ∧ (⟨Dist.sq 0, 100⟩ : BestMatch).distance = .sq sq ∧
      (⟨Dist.sq 0, 100⟩ : BestMatch).confidence =
        ⌊(1 - Real.sqrt ((sq : ℚ) : ℝ)) * 100 + 1 / 2⌋ ∧
      ((1 : ℚ) ≤ 1 → 0 ≤ (⟨Dist.sq 0, 100⟩ : BestMatch).confidence) :=
  findBestMatch_confidence_round [0] [stuA] 1 ⟨.sq 0, 100⟩ stuA
    (by simp [findBestMatch, stuA, euclideanDistance, sumSqDiff, Dist.ltQ, Dist.lt,
      confidence_sq_zero])

end AttendEase
